import Mathlib

/-!
Shallow embedding of `src/gisn.py` (GLOBAL INTELLIGENCE SYNTHESIS NETWORK).

Numeric values are modelled by `ℚ` (the source uses Python floats, but every
constant in the program is a short decimal, so exact rational arithmetic is the
intended real-number semantics); the single square root in the source
(`np.std`) forces `ℝ` for the reliability metric.  Python dicts keyed by
strings are modelled as insertion-ordered association lists, dicts keyed by
the `Domain` enum as total functions `Domain → ℚ` together with the fixed
iteration order `domainList` (Python dict iteration order is insertion order,
which for these dicts is the enum-definition order).  Exceptions are modelled
with `Except`.
-/

/-- The `Domain` enum of gisn.py: the ten fixed catalog domains, in their
definition order. -/
inductive Domain where
  | GAME_THEORY
  | BEHAVIORAL_PSYCHOLOGY
  | SYSTEMS_THINKING
  | ECONOMICS
  | ETHICS
  | PHYSICS
  | COMPLEXITY_SCIENCE
  | NETWORK_THEORY
  | INFORMATION_THEORY
  | EVOLUTIONARY_BIOLOGY
  deriving DecidableEq, Fintype, Repr

/-- The iteration order of the `Domain` enum (and hence of every dict in the
source that is keyed by `Domain` and built by inserting the domains in enum
order, such as the base-weight dict and the per-decision analyses dict). -/
def domainList : List Domain :=
  [.GAME_THEORY, .BEHAVIORAL_PSYCHOLOGY, .SYSTEMS_THINKING, .ECONOMICS,
   .ETHICS, .PHYSICS, .COMPLEXITY_SCIENCE, .NETWORK_THEORY,
   .INFORMATION_THEORY, .EVOLUTIONARY_BIOLOGY]

/-- The `Decision` dataclass of gisn.py.  `constraints` values are consumed
opaquely by the program (`Any` in the source), so a rational payload loses
nothing. -/
structure Decision where
  context : String
  stakeholders : List String
  options : List String
  constraints : List (String × ℚ)
  timeframe : Int
  impact_scale : String
  uncertainty_level : ℚ
  deriving DecidableEq, Repr

/-- The `DomainAnalysis` dataclass of gisn.py. -/
structure DomainAnalysis where
  domain : Domain
  insights : List String
  predictions : List (String × ℚ)
  confidence : ℚ
  interaction_effects : List (Domain × ℚ)
  deriving DecidableEq, Repr

/-- `UniversalIntelligenceSynthesis._initialize_domain_weights`: the fixed
base weight of each catalog domain. -/
def _initialize_domain_weights : Domain → ℚ
  | .GAME_THEORY => 0.15
  | .BEHAVIORAL_PSYCHOLOGY => 0.12
  | .SYSTEMS_THINKING => 0.13
  | .ECONOMICS => 0.11
  | .ETHICS => 0.10
  | .PHYSICS => 0.09
  | .COMPLEXITY_SCIENCE => 0.10
  | .NETWORK_THEORY => 0.08
  | .INFORMATION_THEORY => 0.07
  | .EVOLUTIONARY_BIOLOGY => 0.05

/-- `UniversalIntelligenceSynthesis._load_synthesis_patterns` (constructed at
engine initialization; never read afterwards). -/
def _load_synthesis_patterns : List (String × List Domain) :=
  [("coordination_emergence",
      [.GAME_THEORY, .NETWORK_THEORY, .BEHAVIORAL_PSYCHOLOGY]),
   ("system_optimization",
      [.SYSTEMS_THINKING, .PHYSICS, .COMPLEXITY_SCIENCE]),
   ("ethical_alignment",
      [.ETHICS, .EVOLUTIONARY_BIOLOGY, .BEHAVIORAL_PSYCHOLOGY]),
   ("information_flow",
      [.INFORMATION_THEORY, .NETWORK_THEORY, .COMPLEXITY_SCIENCE])]

/-- The state of a `UniversalIntelligenceSynthesis` instance as set by
`__init__`: the base-weight dict, the synthesis-pattern dict, and the
(never-read) zero coordination matrix. -/
structure UniversalIntelligenceSynthesis where
  domain_weights : Domain → ℚ
  synthesis_patterns : List (String × List Domain)
  coordination_matrix : Domain → Domain → ℚ

/-- `UniversalIntelligenceSynthesis.__init__`. -/
def UniversalIntelligenceSynthesis.init : UniversalIntelligenceSynthesis :=
  { domain_weights := _initialize_domain_weights
    synthesis_patterns := _load_synthesis_patterns
    coordination_matrix := fun _ _ => 0 }

/-- `UniversalIntelligenceSynthesis._game_theory_analysis`.  When
`d.options = []` the list comprehension never evaluates `1/len(d.options)`
(so no division by zero occurs in the source); here the map over `[]` is
likewise empty. -/
def _game_theory_analysis (d : Decision) : DomainAnalysis :=
  { domain := .GAME_THEORY
    insights := ["Nash equilibrium", "Coalition stability"]
    predictions := d.options.map (fun opt => (opt, 1 / (d.options.length : ℚ)))
    confidence := 0.85
    interaction_effects := [(.BEHAVIORAL_PSYCHOLOGY, 0.9)] }

/-- `UniversalIntelligenceSynthesis.analyze_domain`: the source is the stub
`return self._game_theory_analysis(decision)` — the `domain` argument is
ignored. -/
def analyze_domain (d : Decision) (_dom : Domain) : DomainAnalysis :=
  _game_theory_analysis d

/-- The dict update `w` inside `_calculate_context_weights` before
normalization: `w = self.domain_weights.copy()`, then
`if d.impact_scale == "global": w[SYSTEMS_THINKING] *= 1.5`. -/
def contextRawWeights (e : UniversalIntelligenceSynthesis) (d : Decision) :
    Domain → ℚ :=
  fun dom =>
    if d.impact_scale = "global" then
      (if dom = .SYSTEMS_THINKING then e.domain_weights dom * 1.5
       else e.domain_weights dom)
    else e.domain_weights dom

/-- `UniversalIntelligenceSynthesis._calculate_context_weights`:
`total = sum(w.values()); return {k: v / total for k, v in w.items()}`. -/
def _calculate_context_weights (e : UniversalIntelligenceSynthesis)
    (d : Decision) : Domain → ℚ :=
  let w := contextRawWeights e d
  let total := (domainList.map w).sum
  fun dom => w dom / total

/-- The dict read `scores.get(opt, 0)`: association-list lookup defaulting
to `0`. -/
def lookupD : List (String × ℚ) → String → ℚ
  | [], _ => 0
  | (k, v) :: rest, key => if key = k then v else lookupD rest key

/-- The dict write `scores[opt] = scores.get(opt, 0) + v`: add `v` to the
entry for `opt`, inserting a fresh entry at the end (Python dict insertion
order) when `opt` is unseen. -/
def addScore : List (String × ℚ) → String → ℚ → List (String × ℚ)
  | [], k, v => [(k, v)]
  | (k', v') :: rest, k, v =>
      if k' = k then (k', v' + v) :: rest else (k', v') :: addScore rest k v

/-- The inner loop of `_perform_synthesis`: fold one domain's contribution
list into the running score dict. -/
def accumList (m : List (String × ℚ)) (ps : List (String × ℚ)) :
    List (String × ℚ) :=
  ps.foldl (fun acc p => addScore acc p.1 p.2) m

/-- The score dict built by the two nested loops of `_perform_synthesis`:
`for dom, a in analyses.items(): for opt, prob in a.predictions:
scores[opt] = scores.get(opt, 0) + prob * w * a.confidence`. -/
def scoresList (analyses : Domain → DomainAnalysis) (weights : Domain → ℚ) :
    List (String × ℚ) :=
  domainList.foldl
    (fun m dom =>
      accumList m
        ((analyses dom).predictions.map
          (fun p => (p.1, p.2 * weights dom * (analyses dom).confidence))))
    []

/-- Python's `max(scores, key=scores.get)` over a dict in iteration order:
scan left to right keeping the current best, replacing it only on a strictly
greater value (so ties keep the earliest key); `ValueError` on an empty
dict, modelled as `none`. -/
def pyMaxEntry : List (String × ℚ) → Option (String × ℚ)
  | [] => none
  | x :: rest => some (rest.foldl (fun best p => if best.2 < p.2 then p else best) x)

/-- The errors the embedded program can raise: Python's `ValueError` from
`max()` applied to an empty score dict (the only exception reachable in the
source). -/
inductive PyError where
  | emptyMax
  deriving DecidableEq, Repr

/-- The `decision_synthesis` part of the result dict. -/
structure SynthesisResult where
  recommended_option : String
  option_scores : List (String × ℚ)
  synthesis_confidence : ℚ
  deriving DecidableEq, Repr

/-- `UniversalIntelligenceSynthesis._perform_synthesis`. -/
def _perform_synthesis (analyses : Domain → DomainAnalysis)
    (weights : Domain → ℚ) : Except PyError SynthesisResult :=
  let scores := scoresList analyses weights
  match pyMaxEntry scores with
  | none => .error .emptyMax
  | some best =>
      .ok { recommended_option := best.1
            option_scores := scores
            synthesis_confidence :=
              ((domainList.map (fun dom => (analyses dom).confidence)).sum) /
                (domainList.length : ℚ) }

/-- One phase descriptor of the coordination protocol. -/
structure Phase where
  phase : String
  focus : String
  duration : String
  deriving DecidableEq, Repr

/-- `UniversalIntelligenceSynthesis._generate_coordination_protocol`: a fixed
three-phase template, independent of all three arguments. -/
def _generate_coordination_protocol (_d : Decision)
    (_analyses : Domain → DomainAnalysis) (_synthesis : SynthesisResult) :
    List Phase :=
  [{ phase := "foundation", focus := "stakeholder_alignment", duration := "20%" },
   { phase := "coordination", focus := "synchronized_action", duration := "60%" },
   { phase := "optimization", focus := "continuous_improvement", duration := "20%" }]

/-- `np.mean` over a list of rationals. -/
def npMean (xs : List ℚ) : ℚ := xs.sum / (xs.length : ℚ)

/-- The population variance `np.std` takes the square root of:
`mean((x - mean(xs))^2)` with divisor `n` (not `n - 1`). -/
def npVar (xs : List ℚ) : ℚ := npMean (xs.map (fun x => (x - npMean xs) ^ 2))

/-- `np.std`: the population standard deviation.  The square root leaves ℚ,
so this single definition lives in ℝ. -/
noncomputable def npStd (xs : List ℚ) : ℝ := Real.sqrt ((npVar xs : ℚ) : ℝ)

/-- The `confidence_metrics` part of the result dict. -/
structure ConfidenceMetrics where
  average_confidence : ℚ
  synthesis_reliability : ℝ

/-- `UniversalIntelligenceSynthesis._calculate_confidence_metrics`:
`{"average_confidence": np.mean(confs),
  "synthesis_reliability": np.mean(confs) * (1 - np.std(confs))}`. -/
noncomputable def _calculate_confidence_metrics
    (analyses : Domain → DomainAnalysis) : ConfidenceMetrics :=
  let confs := domainList.map (fun dom => (analyses dom).confidence)
  { average_confidence := npMean confs
    synthesis_reliability := ((npMean confs : ℚ) : ℝ) * (1 - npStd confs) }

/-- The full result dict returned by `synthesize_decision`. -/
structure FullResult where
  decision_synthesis : SynthesisResult
  coordination_protocol : List Phase
  confidence_metrics : ConfidenceMetrics

/-- `UniversalIntelligenceSynthesis.synthesize_decision`. -/
noncomputable def synthesize_decision (e : UniversalIntelligenceSynthesis)
    (decision : Decision) : Except PyError FullResult :=
  let domain_analyses := fun dom => analyze_domain decision dom
  let weights := _calculate_context_weights e decision
  match _perform_synthesis domain_analyses weights with
  | .error err => .error err
  | .ok synthesis =>
      .ok { decision_synthesis := synthesis
            coordination_protocol :=
              _generate_coordination_protocol decision domain_analyses synthesis
            confidence_metrics := _calculate_confidence_metrics domain_analyses }

/-- The state of a `GlobalCoordinationNetwork` instance. -/
structure GlobalCoordinationNetwork where
  intelligence_engine : UniversalIntelligenceSynthesis

/-- `GlobalCoordinationNetwork.__init__`. -/
def GlobalCoordinationNetwork.init : GlobalCoordinationNetwork :=
  { intelligence_engine := UniversalIntelligenceSynthesis.init }

/-- The default value of the optional `constraints` parameter after the
`if constraints is None: constraints = {}` normalization. -/
def submitDefaultConstraints : List (String × ℚ) := []

/-- The default value of the optional `impact_scale` parameter of
`submit_decision`. -/
def submitDefaultImpactScale : String := "personal"

/-- The default value of the optional `uncertainty_level` parameter of
`submit_decision`. -/
def submitDefaultUncertainty : ℚ := 0.3

/-- `GlobalCoordinationNetwork.submit_decision`: `constraints` arrives as
`Option` (`None` becomes `{}`), the `Decision` is built with the fixed
`timeframe=30`, and the call returns `synthesize_decision` on it.  (The
second, unreachable `return` in the source is dead code.) -/
noncomputable def submit_decision (net : GlobalCoordinationNetwork)
    (context : String) (stakeholders : List String) (options : List String)
    (constraints : Option (List (String × ℚ))) (impact_scale : String)
    (uncertainty_level : ℚ) : Except PyError FullResult :=
  let constraints := constraints.getD submitDefaultConstraints
  let decision : Decision :=
    { context := context
      stakeholders := stakeholders
      options := options
      constraints := constraints
      timeframe := 30
      impact_scale := impact_scale
      uncertainty_level := uncertainty_level }
  synthesize_decision net.intelligence_engine decision

/-- Follows the wording of the spec's reducer algorithm (the refinement side
of C1): the aggregate score of an option label is the sum, over every catalog
domain and every prediction pair of that domain carrying this label, of
`probability * weight[domain] * analysis.confidence` (0 when no domain
mentions the label). -/
def specAccumScore (analyses : Domain → DomainAnalysis) (weights : Domain → ℚ)
    (opt : String) : ℚ :=
  (domainList.map (fun dom =>
    (((analyses dom).predictions.filter (fun p => p.1 = opt)).map
      (fun p => p.2 * weights dom * (analyses dom).confidence)).sum)).sum

/-- A concrete decision used to instantiate the universally quantified
theorems: two distinct options, the facade's defaults for the optional
fields, the facade's fixed timeframe. -/
def exampleDecision : Decision :=
  { context := "example"
    stakeholders := ["s1", "s2"]
    options := ["A", "B"]
    constraints := []
    timeframe := 30
    impact_scale := "personal"
    uncertainty_level := 0.3 }

/-- The analyses dict the engine actually builds for `exampleDecision` (every
domain answered by the game-theory stub). -/
def exampleAnalyses : Domain → DomainAnalysis :=
  fun _ => _game_theory_analysis exampleDecision

/-! ### Association-list lemmas: the score dict -/

/-- The keys of a score dict, in insertion order. -/
def keysOf (m : List (String × ℚ)) : List String := m.map Prod.fst

theorem lookupD_addScore (m : List (String × ℚ)) (k : String) (v : ℚ)
    (key : String) :
    lookupD (addScore m k v) key = lookupD m key + (if key = k then v else 0) := by
  induction m with
  | nil =>
    by_cases hkey : key = k <;> simp [addScore, lookupD, hkey]
  | cons hd tl ih =>
    obtain ⟨k', v'⟩ := hd
    by_cases hk : k' = k
    · subst hk
      by_cases hkey : key = k' <;> simp [addScore, lookupD, hkey]
    · rw [addScore, if_neg hk]
      by_cases hkey : key = k'
      · subst hkey
        have : ¬ key = k := fun h => hk (h ▸ rfl)
        simp [lookupD, this]
      · simp [lookupD, hkey, ih]

theorem lookupD_accumList (ps : List (String × ℚ)) (m : List (String × ℚ))
    (key : String) :
    lookupD (accumList m ps) key =
      lookupD m key + ((ps.filter (fun p => p.1 = key)).map Prod.snd).sum := by
  induction ps generalizing m with
  | nil => simp [accumList]
  | cons p rest ih =>
    have hstep : accumList m (p :: rest) = accumList (addScore m p.1 p.2) rest := rfl
    rw [hstep, ih, lookupD_addScore]
    by_cases hp : p.1 = key
    · subst hp
      simp [List.filter_cons]
      ring
    · have hp' : ¬ key = p.1 := fun h => hp h.symm
      simp [List.filter_cons, hp, hp']

theorem mem_keysOf_addScore (m : List (String × ℚ)) (k : String) (v : ℚ)
    (key : String) :
    key ∈ keysOf (addScore m k v) ↔ key ∈ keysOf m ∨ key = k := by
  induction m with
  | nil => simp [addScore, keysOf]
  | cons hd tl ih =>
    obtain ⟨k', v'⟩ := hd
    by_cases hk : k' = k
    · subst hk
      simp [addScore, keysOf]
      tauto
    · rw [addScore, if_neg hk]
      simp [keysOf] at ih ⊢
      tauto

theorem keysOf_addScore_nodup (m : List (String × ℚ)) (k : String) (v : ℚ)
    (h : (keysOf m).Nodup) : (keysOf (addScore m k v)).Nodup := by
  induction m with
  | nil => simp [addScore, keysOf]
  | cons hd tl ih =>
    obtain ⟨k', v'⟩ := hd
    simp only [keysOf, List.map_cons, List.nodup_cons] at h
    by_cases hk : k' = k
    · subst hk
      rw [addScore, if_pos rfl]
      simp only [keysOf, List.map_cons, List.nodup_cons]
      exact h
    · rw [addScore, if_neg hk]
      simp only [keysOf, List.map_cons, List.nodup_cons]
      refine ⟨?_, ih h.2⟩
      intro hmem
      rcases (mem_keysOf_addScore tl k v k').mp hmem with h1 | h1
      · exact h.1 h1
      · exact hk h1

theorem mem_keysOf_accumList (ps : List (String × ℚ)) (m : List (String × ℚ))
    (key : String) :
    key ∈ keysOf (accumList m ps) ↔ key ∈ keysOf m ∨ key ∈ ps.map Prod.fst := by
  induction ps generalizing m with
  | nil => simp [accumList]
  | cons p rest ih =>
    have hstep : accumList m (p :: rest) = accumList (addScore m p.1 p.2) rest := rfl
    rw [hstep, ih, mem_keysOf_addScore]
    simp
    tauto

theorem keysOf_accumList_nodup (ps : List (String × ℚ)) (m : List (String × ℚ))
    (h : (keysOf m).Nodup) : (keysOf (accumList m ps)).Nodup := by
  induction ps generalizing m with
  | nil => simpa [accumList]
  | cons p rest ih =>
    have hstep : accumList m (p :: rest) = accumList (addScore m p.1 p.2) rest := rfl
    rw [hstep]
    exact ih _ (keysOf_addScore_nodup m p.1 p.2 h)

theorem lookupD_eq_of_mem (m : List (String × ℚ)) (k : String) (v : ℚ)
    (hnd : (keysOf m).Nodup) (hmem : (k, v) ∈ m) : lookupD m k = v := by
  induction m with
  | nil => cases hmem
  | cons hd tl ih =>
    obtain ⟨k', v'⟩ := hd
    simp only [keysOf, List.map_cons, List.nodup_cons] at hnd
    rcases List.mem_cons.mp hmem with h1 | h1
    · injection h1 with hk hv
      subst hk
      subst hv
      simp [lookupD]
    · have hk : ¬ k = k' := by
        intro heq
        subst heq
        exact hnd.1 (List.mem_map.mpr ⟨(k, v), h1, rfl⟩)
      simp only [lookupD, if_neg hk]
      exact ih hnd.2 h1

theorem mem_of_mem_keysOf (m : List (String × ℚ)) (key : String)
    (h : key ∈ keysOf m) : ∃ v, (key, v) ∈ m := by
  rcases List.mem_map.mp h with ⟨p, hp, hfst⟩
  exact ⟨p.2, by rwa [show (key, p.2) = p from Prod.ext hfst.symm rfl]⟩

/-! ### Lemmas about Python's `max(scores, key=scores.get)` -/

theorem foldBest_mem (l : List (String × ℚ)) (x : String × ℚ) :
    l.foldl (fun best p => if best.2 < p.2 then p else best) x ∈ x :: l := by
  induction l generalizing x with
  | nil => simp
  | cons p rest ih =>
    rw [List.foldl_cons]
    by_cases hlt : x.2 < p.2
    · rw [if_pos hlt]
      rcases List.mem_cons.mp (ih p) with h | h
      · simp [h]
      · simp [h]
    · rw [if_neg hlt]
      rcases List.mem_cons.mp (ih x) with h | h
      · simp [h]
      · simp [h]

theorem foldBest_le (l : List (String × ℚ)) (x : String × ℚ) :
    x.2 ≤ (l.foldl (fun best p => if best.2 < p.2 then p else best) x).2 ∧
      ∀ p ∈ l, p.2 ≤ (l.foldl (fun best p => if best.2 < p.2 then p else best) x).2 := by
  induction l generalizing x with
  | nil => simp
  | cons p rest ih =>
    rw [List.foldl_cons]
    by_cases hlt : x.2 < p.2
    · rw [if_pos hlt]
      obtain ⟨h1, h2⟩ := ih p
      refine ⟨le_trans (le_of_lt hlt) h1, ?_⟩
      intro q hq
      rcases List.mem_cons.mp hq with rfl | hmem
      · exact h1
      · exact h2 q hmem
    · rw [if_neg hlt]
      obtain ⟨h1, h2⟩ := ih x
      refine ⟨h1, ?_⟩
      intro q hq
      rcases List.mem_cons.mp hq with rfl | hmem
      · exact le_trans (le_of_not_lt hlt) h1
      · exact h2 q hmem

theorem foldBest_of_le (l : List (String × ℚ)) (x : String × ℚ)
    (h : ∀ p ∈ l, p.2 ≤ x.2) :
    l.foldl (fun best p => if best.2 < p.2 then p else best) x = x := by
  induction l with
  | nil => simp
  | cons p rest ih =>
    rw [List.foldl_cons, if_neg (not_lt_of_le (h p (by simp)))]
    exact ih (fun q hq => h q (List.mem_cons_of_mem p hq))

theorem pyMaxEntry_mem (m : List (String × ℚ)) (b : String × ℚ)
    (h : pyMaxEntry m = some b) : b ∈ m := by
  cases m with
  | nil => cases h
  | cons x rest =>
    rw [pyMaxEntry] at h
    injection h with h
    exact h ▸ foldBest_mem rest x

theorem pyMaxEntry_le (m : List (String × ℚ)) (b : String × ℚ)
    (h : pyMaxEntry m = some b) : ∀ p ∈ m, p.2 ≤ b.2 := by
  cases m with
  | nil => cases h
  | cons x rest =>
    rw [pyMaxEntry] at h
    injection h with h
    intro p hp
    rcases List.mem_cons.mp hp with h1 | h1
    · exact h1 ▸ h ▸ (foldBest_le rest x).1
    · exact h ▸ (foldBest_le rest x).2 p h1

theorem pyMaxEntry_of_ne_nil (m : List (String × ℚ)) (h : m ≠ []) :
    ∃ b, pyMaxEntry m = some b := by
  cases m with
  | nil => exact absurd rfl h
  | cons x rest => exact ⟨_, rfl⟩

theorem pyMaxEntry_const (opts : List String) (o0 : String) (c : ℚ) :
    pyMaxEntry ((o0 :: opts).map (fun o => (o, c))) = some (o0, c) := by
  rw [List.map_cons, pyMaxEntry]
  congr 1
  refine foldBest_of_le _ _ ?_
  intro p hp
  rcases List.mem_map.mp hp with ⟨o, _, rfl⟩
  exact le_refl c

/-! ### The score dict on uniform per-domain contributions -/

theorem addScore_cons_ne (m : List (String × ℚ)) (k0 k : String) (v0 v : ℚ)
    (h : k0 ≠ k) : addScore ((k0, v0) :: m) k v = (k0, v0) :: addScore m k v := by
  rw [addScore, if_neg h]

theorem addScore_of_not_mem (m : List (String × ℚ)) (k : String) (v : ℚ)
    (h : k ∉ keysOf m) : addScore m k v = m ++ [(k, v)] := by
  induction m with
  | nil => rfl
  | cons hd tl ih =>
    obtain ⟨k', v'⟩ := hd
    simp only [keysOf, List.map_cons, List.mem_cons] at h
    push_neg at h
    rw [addScore, if_neg (fun heq => h.1 heq.symm)]
    rw [ih h.2]
    rfl

theorem accumList_cons_ne (ps : List (String × ℚ)) (m : List (String × ℚ))
    (k0 : String) (v0 : ℚ) (h : ∀ p ∈ ps, p.1 ≠ k0) :
    accumList ((k0, v0) :: m) ps = (k0, v0) :: accumList m ps := by
  induction ps generalizing m with
  | nil => rfl
  | cons p rest ih =>
    have h0 : k0 ≠ p.1 := Ne.symm (h p (List.mem_cons_self p rest))
    have hrest : ∀ q ∈ rest, q.1 ≠ k0 := fun q hq => h q (List.mem_cons_of_mem p hq)
    show accumList (addScore ((k0, v0) :: m) p.1 p.2) rest =
      (k0, v0) :: accumList (addScore m p.1 p.2) rest
    rw [addScore_cons_ne m k0 p.1 v0 p.2 h0]
    exact ih (addScore m p.1 p.2) hrest

theorem accumList_fresh (ps : List (String × ℚ)) (m : List (String × ℚ))
    (hnd : (ps.map Prod.fst).Nodup) (hdisj : ∀ p ∈ ps, p.1 ∉ keysOf m) :
    accumList m ps = m ++ ps := by
  induction ps generalizing m with
  | nil => simp [accumList]
  | cons p rest ih =>
    simp only [List.map_cons, List.nodup_cons] at hnd
    have hstep : accumList m (p :: rest) = accumList (addScore m p.1 p.2) rest := rfl
    rw [hstep, addScore_of_not_mem m p.1 p.2 (hdisj p (List.mem_cons_self p rest))]
    rw [ih (m ++ [(p.1, p.2)]) hnd.2]
    · simp
    · intro q hq
      simp only [keysOf, List.map_append, List.mem_append]
      push_neg
      refine ⟨hdisj q (List.mem_cons_of_mem p hq), ?_⟩
      simp only [List.map_cons, List.map_nil, List.mem_singleton]
      exact fun heq => hnd.1 (heq ▸ List.mem_map.mpr ⟨q, hq, rfl⟩)

theorem accumList_uniform (opts : List String) (g : String → ℚ) (c : ℚ)
    (hnd : opts.Nodup) :
    accumList (opts.map (fun o => (o, g o))) (opts.map (fun o => (o, c))) =
      opts.map (fun o => (o, g o + c)) := by
  induction opts generalizing g with
  | nil => rfl
  | cons o rest ih =>
    simp only [List.nodup_cons] at hnd
    have hstep : accumList ((o, g o) :: rest.map (fun o => (o, g o)))
        ((o, c) :: rest.map (fun o => (o, c))) =
        accumList (addScore ((o, g o) :: rest.map (fun o => (o, g o))) o c)
          (rest.map (fun o => (o, c))) := rfl
    simp only [List.map_cons]
    rw [hstep, addScore, if_pos rfl]
    rw [accumList_cons_ne (rest.map (fun o => (o, c))) (rest.map (fun o => (o, g o))) o (g o + c) ?_]
    · rw [ih g hnd.2]
    · intro p hp
      rcases List.mem_map.mp hp with ⟨o', ho', rfl⟩
      exact fun heq => hnd.1 (heq ▸ ho')

theorem foldl_accum_uniform (opts : List String) (cf : Domain → ℚ)
    (hnd : opts.Nodup) (L : List Domain) :
    ∀ g : String → ℚ,
      L.foldl (fun m dom => accumList m (opts.map (fun o => (o, cf dom))))
          (opts.map (fun o => (o, g o))) =
        opts.map (fun o => (o, g o + (L.map cf).sum)) := by
  induction L with
  | nil => intro g; simp
  | cons dom L' ih =>
    intro g
    rw [List.foldl_cons, accumList_uniform opts g (cf dom) hnd, ih (fun o => g o + cf dom)]
    rw [List.map_cons, List.sum_cons]
    refine List.map_congr_left ?_
    intro o _
    rw [add_assoc]

/-! ### The score dict over the domain fold -/

theorem lookupD_foldl_accum (contrib : Domain → List (String × ℚ)) (key : String)
    (L : List Domain) :
    ∀ m0 : List (String × ℚ),
      lookupD (L.foldl (fun m dom => accumList m (contrib dom)) m0) key =
        lookupD m0 key +
          (L.map (fun dom =>
            (((contrib dom).filter (fun p => p.1 = key)).map Prod.snd).sum)).sum := by
  induction L with
  | nil => intro m0; simp
  | cons dom L' ih =>
    intro m0
    rw [List.foldl_cons, ih (accumList m0 (contrib dom)), lookupD_accumList]
    rw [List.map_cons, List.sum_cons]
    ring

theorem mem_keysOf_foldl_accum (contrib : Domain → List (String × ℚ)) (key : String)
    (L : List Domain) :
    ∀ m0 : List (String × ℚ),
      (key ∈ keysOf (L.foldl (fun m dom => accumList m (contrib dom)) m0) ↔
        key ∈ keysOf m0 ∨ ∃ dom ∈ L, key ∈ (contrib dom).map Prod.fst) := by
  induction L with
  | nil => intro m0; simp
  | cons dom L' ih =>
    intro m0
    rw [List.foldl_cons, ih (accumList m0 (contrib dom)), mem_keysOf_accumList]
    simp only [List.mem_cons]
    constructor
    · rintro ((h | h) | ⟨dom', hdom', h⟩)
      · exact Or.inl h
      · exact Or.inr ⟨dom, Or.inl rfl, h⟩
      · exact Or.inr ⟨dom', Or.inr hdom', h⟩
    · rintro (h | ⟨dom', hdom' | hdom', h⟩)
      · exact Or.inl (Or.inl h)
      · exact Or.inl (Or.inr (hdom' ▸ h))
      · exact Or.inr ⟨dom', hdom', h⟩

theorem keysOf_foldl_accum_nodup (contrib : Domain → List (String × ℚ))
    (L : List Domain) :
    ∀ m0 : List (String × ℚ), (keysOf m0).Nodup →
      (keysOf (L.foldl (fun m dom => accumList m (contrib dom)) m0)).Nodup := by
  induction L with
  | nil => intro m0 h; simpa
  | cons dom L' ih =>
    intro m0 h
    rw [List.foldl_cons]
    exact ih (accumList m0 (contrib dom)) (keysOf_accumList_nodup (contrib dom) m0 h)

theorem filter_map_scale (preds : List (String × ℚ)) (a b : ℚ) (key : String) :
    ((preds.map (fun p => (p.1, p.2 * a * b))).filter (fun p => p.1 = key)).map Prod.snd =
      (preds.filter (fun p => p.1 = key)).map (fun p => p.2 * a * b) := by
  induction preds with
  | nil => rfl
  | cons p rest ih =>
    by_cases hp : p.1 = key
    · simp [List.filter_cons, hp, ih]
    · simp [List.filter_cons, hp, ih]

theorem map_fst_scale (preds : List (String × ℚ)) (a b : ℚ) :
    (preds.map (fun p => (p.1, p.2 * a * b))).map Prod.fst = preds.map Prod.fst := by
  rw [List.map_map]
  rfl

theorem sum_map_mul_const (L : List Domain) (k : ℚ) (f : Domain → ℚ) :
    (L.map (fun dom => k * f dom)).sum = k * (L.map f).sum := by
  induction L with
  | nil => simp
  | cons dom L' ih =>
    rw [List.map_cons, List.sum_cons, List.map_cons, List.sum_cons, ih, mul_add]

/-! ### Context weights of the initialized engine -/

theorem sum_context_weights_init (d : Decision) :
    (domainList.map (_calculate_context_weights UniversalIntelligenceSynthesis.init d)).sum = 1 := by
  by_cases h : d.impact_scale = "global"
  · have hraw : contextRawWeights UniversalIntelligenceSynthesis.init d =
        (fun dom => if dom = Domain.SYSTEMS_THINKING
          then _initialize_domain_weights dom * 1.5
          else _initialize_domain_weights dom) := by
      funext dom
      simp [contextRawWeights, h, UniversalIntelligenceSynthesis.init]
    simp only [_calculate_context_weights, hraw]
    simp [domainList, _initialize_domain_weights]
    norm_num
  · have hraw : contextRawWeights UniversalIntelligenceSynthesis.init d =
        _initialize_domain_weights := by
      funext dom
      simp [contextRawWeights, h, UniversalIntelligenceSynthesis.init]
    simp only [_calculate_context_weights, hraw]
    simp [domainList, _initialize_domain_weights]
    norm_num

/-! ### Claim theorems -/

/-- C2: context weighting starts from the fixed base weights, multiplies the
Systems-Thinking weight by 1.5 exactly when `impact_scale = "global"` (no
other value of `impact_scale` changes any weight), then divides every weight
by the sum of all weights; the returned weight vector sums to exactly 1 (so a
fortiori within floating-point tolerance). -/
theorem C2_context_weighting (d : Decision) :
    (∀ dom, contextRawWeights UniversalIntelligenceSynthesis.init d dom =
      (if d.impact_scale = "global" ∧ dom = Domain.SYSTEMS_THINKING
        then 1.5 * _initialize_domain_weights dom
        else _initialize_domain_weights dom)) ∧
    (domainList.map
      (_calculate_context_weights UniversalIntelligenceSynthesis.init d)).sum = 1 := by
  refine ⟨?_, sum_context_weights_init d⟩
  intro dom
  by_cases h : d.impact_scale = "global"
  · by_cases hd : dom = Domain.SYSTEMS_THINKING
    · simp [contextRawWeights, h, hd, UniversalIntelligenceSynthesis.init, mul_comm]
    · simp [contextRawWeights, h, hd, UniversalIntelligenceSynthesis.init]
  · simp [contextRawWeights, h, UniversalIntelligenceSynthesis.init]

/-- C9: the ten fixed base weights sum to exactly 1.00, and the engine's
stored weight dict is the base-weight constant (the embedding is pure:
`_calculate_context_weights` reads `e.domain_weights` through a copy and
never rebinds it, so the base weights cannot be mutated at runtime). -/
theorem C9_base_weights :
    (domainList.map _initialize_domain_weights).sum = 1 ∧
    UniversalIntelligenceSynthesis.init.domain_weights = _initialize_domain_weights := by
  constructor
  · simp [domainList, _initialize_domain_weights]
    norm_num
  · rfl

/-- C5 (code evaluated at the failing input): `analyze_domain` asked for the
Systems-Thinking domain returns the game-theory analysis — the stub ignores
its domain argument, so the returned analysis is not specific to the
requested domain and no unsupported-domain error path exists. -/
theorem C5_analyze_domain_stub :
    analyze_domain exampleDecision Domain.SYSTEMS_THINKING =
      _game_theory_analysis exampleDecision ∧
    (analyze_domain exampleDecision Domain.SYSTEMS_THINKING).domain =
      Domain.GAME_THEORY ∧
    (analyze_domain exampleDecision Domain.SYSTEMS_THINKING).domain ≠
      Domain.SYSTEMS_THINKING := by
  exact ⟨rfl, rfl, by decide⟩

/-- C6: submitting a decision with an empty options sequence fails
synchronously: no domain reports a prediction, the score dict stays empty,
and the reducer's `max` raises (modelled as `Except.error PyError.emptyMax`);
the error reaches the caller of `submit_decision` and is never defaulted. -/
theorem C6_empty_options_fail (net : GlobalCoordinationNetwork)
    (context : String) (stakeholders : List String)
    (constraints : Option (List (String × ℚ))) (impact_scale : String)
    (uncertainty_level : ℚ) :
    submit_decision net context stakeholders [] constraints impact_scale
      uncertainty_level = .error PyError.emptyMax := rfl

/-- C7: `submit_decision` is deterministic — it is a pure function of its
argument tuple (the embedding has no state a call could read or write
besides the fixed engine constants), so two runs on identical inputs give
identical results. -/
theorem C7_deterministic (net : GlobalCoordinationNetwork) (context : String)
    (stakeholders : List String) (options : List String)
    (constraints : Option (List (String × ℚ))) (impact_scale : String)
    (uncertainty_level : ℚ) :
    submit_decision net context stakeholders options constraints impact_scale
        uncertainty_level =
      submit_decision net context stakeholders options constraints impact_scale
        uncertainty_level := rfl

/-- C8: the facade defaults `constraints` to the empty dict (and its other
optional fields to "personal" and 0.3), builds a `Decision` whose
`timeframe` is the fixed 30 and whose remaining fields are the caller's
arguments unchanged, performs no other validation, and returns the
synthesis pipeline's assembled result (decision synthesis, coordination
protocol, confidence metrics). -/
theorem C8_facade_contract (net : GlobalCoordinationNetwork) (context : String)
    (stakeholders : List String) (options : List String)
    (constraints : List (String × ℚ)) (impact_scale : String)
    (uncertainty_level : ℚ) :
    submit_decision net context stakeholders options (some constraints)
        impact_scale uncertainty_level =
      synthesize_decision net.intelligence_engine
        { context := context, stakeholders := stakeholders, options := options
          constraints := constraints, timeframe := 30
          impact_scale := impact_scale, uncertainty_level := uncertainty_level } ∧
    submit_decision net context stakeholders options none
        impact_scale uncertainty_level =
      synthesize_decision net.intelligence_engine
        { context := context, stakeholders := stakeholders, options := options
          constraints := [], timeframe := 30
          impact_scale := impact_scale, uncertainty_level := uncertainty_level } ∧
    submitDefaultConstraints = [] ∧
    submitDefaultImpactScale = "personal" ∧
    submitDefaultUncertainty = 0.3 ∧
    (∀ dec : Decision,
      synthesize_decision net.intelligence_engine dec =
        (_perform_synthesis (fun dom => analyze_domain dec dom)
            (_calculate_context_weights net.intelligence_engine dec)).map
          (fun synthesis =>
            { decision_synthesis := synthesis
              coordination_protocol :=
                _generate_coordination_protocol dec
                  (fun dom => analyze_domain dec dom) synthesis
              confidence_metrics :=
                _calculate_confidence_metrics
                  (fun dom => analyze_domain dec dom) })) := by
  refine ⟨rfl, rfl, rfl, rfl, rfl, ?_⟩
  intro dec
  cases h : _perform_synthesis (fun dom => analyze_domain dec dom)
      (_calculate_context_weights net.intelligence_engine dec) with
  | error err => simp [synthesize_decision, h, Except.map]
  | ok synthesis => simp [synthesize_decision, h, Except.map]

/-- C1: the reducer accumulates, for each domain's (option, probability)
prediction pair, `probability * weight[domain] * confidence` into a score
map keyed by option label (0 for unseen labels); the recommended option is a
key of the score map holding the maximum accumulated score, and the
synthesis confidence is the unweighted arithmetic mean of the ten domain
confidences. -/
theorem C1_synthesis_reducer (analyses : Domain → DomainAnalysis)
    (weights : Domain → ℚ)
    (hw : (domainList.map weights).sum = 1)
    (hne : scoresList analyses weights ≠ []) :
    ∃ r, _perform_synthesis analyses weights = .ok r ∧
      r.option_scores = scoresList analyses weights ∧
      (∀ opt, lookupD r.option_scores opt = specAccumScore analyses weights opt) ∧
      (∀ opt, opt ∈ keysOf r.option_scores ↔
        ∃ dom ∈ domainList, ∃ p ∈ (analyses dom).predictions, p.1 = opt) ∧
      r.recommended_option ∈ keysOf r.option_scores ∧
      (∀ opt ∈ keysOf r.option_scores,
        lookupD r.option_scores opt ≤ lookupD r.option_scores r.recommended_option) ∧
      r.synthesis_confidence =
        (domainList.map (fun dom => (analyses dom).confidence)).sum / 10 := by
  obtain ⟨b, hb⟩ := pyMaxEntry_of_ne_nil _ hne
  have hps : _perform_synthesis analyses weights =
      .ok { recommended_option := b.1
            option_scores := scoresList analyses weights
            synthesis_confidence :=
              ((domainList.map (fun dom => (analyses dom).confidence)).sum) /
                (domainList.length : ℚ) } := by
    simp only [_perform_synthesis, hb]
  have hfold : scoresList analyses weights =
      domainList.foldl (fun m dom => accumList m
        ((analyses dom).predictions.map
          (fun p => (p.1, p.2 * weights dom * (analyses dom).confidence)))) [] := rfl
  have hnd : (keysOf (scoresList analyses weights)).Nodup := by
    rw [hfold]
    exact keysOf_foldl_accum_nodup _ domainList [] (by simp [keysOf])
  have hbmem : b ∈ scoresList analyses weights := pyMaxEntry_mem _ b hb
  refine ⟨_, hps, rfl, ?_, ?_, ?_, ?_, ?_⟩
  · intro opt
    show lookupD (scoresList analyses weights) opt = _
    rw [hfold, lookupD_foldl_accum _ opt domainList []]
    simp only [lookupD, zero_add]
    unfold specAccumScore
    refine congrArg List.sum (List.map_congr_left ?_)
    intro dom _
    rw [filter_map_scale]
  · intro opt
    show opt ∈ keysOf (scoresList analyses weights) ↔ _
    rw [hfold, mem_keysOf_foldl_accum _ opt domainList []]
    simp only [keysOf, List.map_nil, List.not_mem_nil, false_or]
    constructor
    · rintro ⟨dom, hdom, hmem⟩
      rw [map_fst_scale] at hmem
      rcases List.mem_map.mp hmem with ⟨p, hp, hfst⟩
      exact ⟨dom, hdom, p, hp, hfst⟩
    · rintro ⟨dom, hdom, p, hp, hfst⟩
      refine ⟨dom, hdom, ?_⟩
      rw [map_fst_scale]
      exact List.mem_map.mpr ⟨p, hp, hfst⟩
  · exact List.mem_map.mpr ⟨b, hbmem, rfl⟩
  · intro opt hopt
    obtain ⟨v, hv⟩ := mem_of_mem_keysOf _ opt hopt
    rw [lookupD_eq_of_mem _ opt v hnd hv,
      lookupD_eq_of_mem _ b.1 b.2 hnd (by simpa using hbmem)]
    exact pyMaxEntry_le _ b hb (opt, v) hv
  · show _ / (domainList.length : ℚ) = _ / 10
    norm_num [domainList]

theorem foldl_accum_const (opts : List String) (cf : Domain → ℚ)
    (hnd : opts.Nodup) (L : List Domain) (k : ℚ) :
    L.foldl (fun m dom => accumList m (opts.map (fun o => (o, cf dom))))
        (opts.map (fun o => (o, k))) =
      opts.map (fun o => (o, k + (L.map cf).sum)) :=
  foldl_accum_uniform opts cf hnd L (fun _ => k)

theorem map_fst_pairs (opts : List String) (f : String → ℚ) :
    (opts.map (fun o => (o, f o))).map Prod.fst = opts := by
  rw [List.map_map]
  exact List.map_id opts

theorem stub_scores (d : Decision) (w : Domain → ℚ)
    (hw : (domainList.map w).sum = 1) (hnd : d.options.Nodup) :
    scoresList (fun dom => analyze_domain d dom) w =
      d.options.map (fun o => (o, (0.85 : ℚ) / (d.options.length : ℚ))) := by
  have hfun : (fun (m : List (String × ℚ)) (dom : Domain) => accumList m
        (((fun dom => analyze_domain d dom) dom).predictions.map
          (fun p => (p.1, p.2 * w dom *
            ((fun dom => analyze_domain d dom) dom).confidence)))) =
      (fun m dom => accumList m
        (d.options.map (fun o =>
          (o, 1 / (d.options.length : ℚ) * w dom * 0.85)))) := by
    funext m dom
    show accumList m ((d.options.map
        (fun opt => (opt, 1 / (d.options.length : ℚ)))).map _) = _
    rw [List.map_map]
    rfl
  have h1 : scoresList (fun dom => analyze_domain d dom) w =
      domainList.foldl (fun m dom => accumList m
        (d.options.map (fun o =>
          (o, 1 / (d.options.length : ℚ) * w dom * 0.85)))) [] := by
    show domainList.foldl _ [] = _
    rw [hfun]
  have hfresh : accumList []
      (d.options.map (fun o =>
        (o, 1 / (d.options.length : ℚ) * w Domain.GAME_THEORY * 0.85))) =
      d.options.map (fun o =>
        (o, 1 / (d.options.length : ℚ) * w Domain.GAME_THEORY * 0.85)) := by
    rw [accumList_fresh _ [] ?_ ?_]
    · rw [List.nil_append]
    · rw [map_fst_pairs]
      exact hnd
    · intro p _
      simp [keysOf]
  have h2 : domainList.foldl (fun m dom => accumList m
        (d.options.map (fun o =>
          (o, 1 / (d.options.length : ℚ) * w dom * 0.85)))) [] =
      d.options.map (fun o =>
        (o, 1 / (d.options.length : ℚ) * w Domain.GAME_THEORY * 0.85 +
          ([Domain.BEHAVIORAL_PSYCHOLOGY, Domain.SYSTEMS_THINKING,
            Domain.ECONOMICS, Domain.ETHICS, Domain.PHYSICS,
            Domain.COMPLEXITY_SCIENCE, Domain.NETWORK_THEORY,
            Domain.INFORMATION_THEORY, Domain.EVOLUTIONARY_BIOLOGY].map
              (fun dom => 1 / (d.options.length : ℚ) * w dom * 0.85)).sum)) := by
    show ([Domain.BEHAVIORAL_PSYCHOLOGY, Domain.SYSTEMS_THINKING,
        Domain.ECONOMICS, Domain.ETHICS, Domain.PHYSICS,
        Domain.COMPLEXITY_SCIENCE, Domain.NETWORK_THEORY,
        Domain.INFORMATION_THEORY, Domain.EVOLUTIONARY_BIOLOGY].foldl
          (fun m dom => accumList m (d.options.map (fun o =>
            (o, 1 / (d.options.length : ℚ) * w dom * 0.85))))
          (accumList [] (d.options.map (fun o =>
            (o, 1 / (d.options.length : ℚ) * w Domain.GAME_THEORY * 0.85))))) = _
    rw [hfresh]
    exact foldl_accum_const d.options
      (fun dom => 1 / (d.options.length : ℚ) * w dom * 0.85) hnd _
      (1 / (d.options.length : ℚ) * w Domain.GAME_THEORY * 0.85)
  rw [h1, h2]
  refine List.map_congr_left ?_
  intro o _
  have hsum : (domainList.map
      (fun dom => 1 / (d.options.length : ℚ) * w dom * 0.85)).sum =
      0.85 / (d.options.length : ℚ) := by
    have hterm : (domainList.map
        (fun dom => 1 / (d.options.length : ℚ) * w dom * 0.85)).sum =
        (domainList.map
          (fun dom => (0.85 / (d.options.length : ℚ)) * w dom)).sum := by
      refine congrArg List.sum (List.map_congr_left ?_)
      intro dom _
      ring
    rw [hterm, sum_map_mul_const, hw, mul_one]
  have hsplit : (domainList.map
      (fun dom => 1 / (d.options.length : ℚ) * w dom * 0.85)).sum =
      1 / (d.options.length : ℚ) * w Domain.GAME_THEORY * 0.85 +
        ([Domain.BEHAVIORAL_PSYCHOLOGY, Domain.SYSTEMS_THINKING,
          Domain.ECONOMICS, Domain.ETHICS, Domain.PHYSICS,
          Domain.COMPLEXITY_SCIENCE, Domain.NETWORK_THEORY,
          Domain.INFORMATION_THEORY, Domain.EVOLUTIONARY_BIOLOGY].map
            (fun dom => 1 / (d.options.length : ℚ) * w dom * 0.85)).sum := rfl
  rw [← hsplit, hsum]

/-- C3: with the analyzer stub answering every domain with the uniform
game-theory analysis, every distinct option accumulates exactly the same
aggregate score 0.85 / (number of options), and the recommended option is
always the first option of the caller's options sequence, whatever the other
decision attributes are. -/
theorem C3_uniform_stub (d : Decision) (hne : d.options ≠ [])
    (hnd : d.options.Nodup) :
    ∃ r, synthesize_decision UniversalIntelligenceSynthesis.init d = .ok r ∧
      r.decision_synthesis.option_scores =
        d.options.map (fun o => (o, (0.85 : ℚ) / (d.options.length : ℚ))) ∧
      d.options.head? = some r.decision_synthesis.recommended_option := by
  obtain ⟨o0, opts, hopts⟩ := List.exists_cons_of_ne_nil hne
  have hscores : scoresList (fun dom => analyze_domain d dom)
      (_calculate_context_weights UniversalIntelligenceSynthesis.init d) =
      d.options.map (fun o => (o, (0.85 : ℚ) / (d.options.length : ℚ))) :=
    stub_scores d _ (sum_context_weights_init d) hnd
  have hmax : pyMaxEntry (scoresList (fun dom => analyze_domain d dom)
      (_calculate_context_weights UniversalIntelligenceSynthesis.init d)) =
      some (o0, (0.85 : ℚ) / (d.options.length : ℚ)) := by
    rw [hscores, hopts]
    exact pyMaxEntry_const opts o0 _
  have hps : _perform_synthesis (fun dom => analyze_domain d dom)
      (_calculate_context_weights UniversalIntelligenceSynthesis.init d) =
      .ok { recommended_option := o0
            option_scores := scoresList (fun dom => analyze_domain d dom)
              (_calculate_context_weights UniversalIntelligenceSynthesis.init d)
            synthesis_confidence :=
              ((domainList.map
                (fun dom => (analyze_domain d dom).confidence)).sum) /
                (domainList.length : ℚ) } := by
    simp only [_perform_synthesis, hmax]
  have hsynth : synthesize_decision UniversalIntelligenceSynthesis.init d =
      .ok { decision_synthesis :=
              { recommended_option := o0
                option_scores := scoresList (fun dom => analyze_domain d dom)
                  (_calculate_context_weights UniversalIntelligenceSynthesis.init d)
                synthesis_confidence :=
                  ((domainList.map
                    (fun dom => (analyze_domain d dom).confidence)).sum) /
                    (domainList.length : ℚ) }
            coordination_protocol :=
              _generate_coordination_protocol d (fun dom => analyze_domain d dom)
                { recommended_option := o0
                  option_scores := scoresList (fun dom => analyze_domain d dom)
                    (_calculate_context_weights UniversalIntelligenceSynthesis.init d)
                  synthesis_confidence :=
                    ((domainList.map
                      (fun dom => (analyze_domain d dom).confidence)).sum) /
                      (domainList.length : ℚ) }
            confidence_metrics :=
              _calculate_confidence_metrics (fun dom => analyze_domain d dom) } := by
    simp only [synthesize_decision, hps]
  refine ⟨_, hsynth, ?_, ?_⟩
  · exact hscores
  · rw [hopts]
    rfl

/-- C4: the confidence aggregator returns the arithmetic mean of the domain
confidences and `average * (1 - population_standard_deviation)`, where the
population standard deviation is the square root of the squared deviations
from the mean divided by the domain count n = 10 (not n - 1); when all ten
domains report the same confidence the standard deviation is 0 and the
reliability equals the average. -/
theorem C4_confidence_aggregator (analyses : Domain → DomainAnalysis) :
    (_calculate_confidence_metrics analyses).average_confidence =
      (domainList.map (fun dom => (analyses dom).confidence)).sum / 10 ∧
    (_calculate_confidence_metrics analyses).synthesis_reliability =
      (((domainList.map (fun dom => (analyses dom).confidence)).sum / 10 : ℚ) : ℝ) *
        (1 - Real.sqrt
          (((domainList.map (fun dom =>
              ((analyses dom).confidence -
                (domainList.map (fun dom => (analyses dom).confidence)).sum / 10) ^ 2)).sum
              / 10 : ℚ) : ℝ)) ∧
    (∀ c : ℚ, (∀ dom, (analyses dom).confidence = c) →
      (_calculate_confidence_metrics analyses).synthesis_reliability =
        ((_calculate_confidence_metrics analyses).average_confidence : ℝ)) := by
  have hlen : (((domainList.map (fun dom => (analyses dom).confidence)).length) : ℚ) = 10 := by
    simp [domainList]
  have hmean : npMean (domainList.map (fun dom => (analyses dom).confidence)) =
      (domainList.map (fun dom => (analyses dom).confidence)).sum / 10 := by
    rw [npMean, hlen]
  have hvar : npVar (domainList.map (fun dom => (analyses dom).confidence)) =
      (domainList.map (fun dom =>
        ((analyses dom).confidence -
          (domainList.map (fun dom => (analyses dom).confidence)).sum / 10) ^ 2)).sum / 10 := by
    simp only [npVar, npMean, List.length_map, List.map_map]
    rw [show ((domainList.length : ℚ)) = 10 from by simp [domainList]]
    rw [show ((fun x => (x - (domainList.map (fun dom => (analyses dom).confidence)).sum / 10) ^ 2) ∘
        fun dom => (analyses dom).confidence) = (fun dom =>
          ((analyses dom).confidence -
            (domainList.map (fun dom => (analyses dom).confidence)).sum / 10) ^ 2) from rfl]
  refine ⟨hmean, ?_, ?_⟩
  · show ((npMean (domainList.map (fun dom => (analyses dom).confidence)) : ℚ) : ℝ) *
      (1 - npStd (domainList.map (fun dom => (analyses dom).confidence))) = _
    rw [npStd, hvar, hmean]
  · intro c h
    have hconfs : (domainList.map (fun dom => (analyses dom).confidence)) =
        domainList.map (fun _ => c) :=
      List.map_congr_left (fun dom _ => h dom)
    have hmeanc : npMean (domainList.map (fun dom => (analyses dom).confidence)) = c := by
      rw [npMean, hconfs]
      simp [domainList]
      ring
    have hvar0 : npVar (domainList.map (fun dom => (analyses dom).confidence)) = 0 := by
      simp only [npVar]
      rw [hmeanc, hconfs]
      simp [npMean, domainList]
    show ((npMean (domainList.map (fun dom => (analyses dom).confidence)) : ℚ) : ℝ) *
      (1 - npStd (domainList.map (fun dom => (analyses dom).confidence))) =
      ((npMean (domainList.map (fun dom => (analyses dom).confidence)) : ℚ) : ℝ)
    rw [npStd, hvar0]
    push_cast
    rw [Real.sqrt_zero]
    ring

/-- C10: every domain analysis carries confidence exactly 0.85 (the stub),
so on every successful call average confidence, synthesis confidence and
synthesis reliability are the constants 0.85 (the population standard
deviation of ten equal confidences is 0). -/
theorem C10_constant_confidence (d : Decision) (hne : d.options ≠ []) :
    (∀ dom, (analyze_domain d dom).confidence = 0.85) ∧
    ∃ r, synthesize_decision UniversalIntelligenceSynthesis.init d = .ok r ∧
      r.confidence_metrics.average_confidence = 0.85 ∧
      r.confidence_metrics.synthesis_reliability = ((0.85 : ℚ) : ℝ) ∧
      r.decision_synthesis.synthesis_confidence = 0.85 := by
  obtain ⟨o0, opts, hopts⟩ := List.exists_cons_of_ne_nil hne
  have hfst : ((analyze_domain d Domain.GAME_THEORY).predictions.map
      (fun p => (p.1, p.2 * _calculate_context_weights UniversalIntelligenceSynthesis.init d
        Domain.GAME_THEORY * (analyze_domain d Domain.GAME_THEORY).confidence))).map
        Prod.fst = d.options := by
    rw [map_fst_scale]
    exact map_fst_pairs d.options (fun _ => 1 / (d.options.length : ℚ))
  have hmem : o0 ∈ keysOf (scoresList (fun dom => analyze_domain d dom)
      (_calculate_context_weights UniversalIntelligenceSynthesis.init d)) := by
    refine (mem_keysOf_foldl_accum _ o0 domainList []).mpr
      (Or.inr ⟨Domain.GAME_THEORY, by simp [domainList], ?_⟩)
    rw [hfst, hopts]
    exact List.mem_cons_self o0 opts
  have hscne : scoresList (fun dom => analyze_domain d dom)
      (_calculate_context_weights UniversalIntelligenceSynthesis.init d) ≠ [] := by
    intro h0
    rw [h0] at hmem
    simp [keysOf] at hmem
  obtain ⟨b, hb⟩ := pyMaxEntry_of_ne_nil _ hscne
  have hps : _perform_synthesis (fun dom => analyze_domain d dom)
      (_calculate_context_weights UniversalIntelligenceSynthesis.init d) =
      .ok { recommended_option := b.1
            option_scores := scoresList (fun dom => analyze_domain d dom)
              (_calculate_context_weights UniversalIntelligenceSynthesis.init d)
            synthesis_confidence :=
              ((domainList.map
                (fun dom => (analyze_domain d dom).confidence)).sum) /
                (domainList.length : ℚ) } := by
    simp only [_perform_synthesis, hb]
  have hsynth : synthesize_decision UniversalIntelligenceSynthesis.init d =
      .ok { decision_synthesis :=
              { recommended_option := b.1
                option_scores := scoresList (fun dom => analyze_domain d dom)
                  (_calculate_context_weights UniversalIntelligenceSynthesis.init d)
                synthesis_confidence :=
                  ((domainList.map
                    (fun dom => (analyze_domain d dom).confidence)).sum) /
                    (domainList.length : ℚ) }
            coordination_protocol :=
              _generate_coordination_protocol d (fun dom => analyze_domain d dom)
                { recommended_option := b.1
                  option_scores := scoresList (fun dom => analyze_domain d dom)
                    (_calculate_context_weights UniversalIntelligenceSynthesis.init d)
                  synthesis_confidence :=
                    ((domainList.map
                      (fun dom => (analyze_domain d dom).confidence)).sum) /
                      (domainList.length : ℚ) }
            confidence_metrics :=
              _calculate_confidence_metrics (fun dom => analyze_domain d dom) } := by
    simp only [synthesize_decision, hps]
  refine ⟨fun _ => rfl, _, hsynth, ?_, ?_, ?_⟩
  · show npMean (domainList.map (fun dom => (analyze_domain d dom).confidence)) = 0.85
    norm_num [npMean, domainList, analyze_domain, _game_theory_analysis]
  · have hvar0 : npVar (domainList.map
        (fun dom => (analyze_domain d dom).confidence)) = 0 := by
      norm_num [npVar, npMean, domainList, analyze_domain, _game_theory_analysis]
    have hmean : npMean (domainList.map
        (fun dom => (analyze_domain d dom).confidence)) = 0.85 := by
      norm_num [npMean, domainList, analyze_domain, _game_theory_analysis]
    show ((npMean (domainList.map (fun dom => (analyze_domain d dom).confidence)) : ℚ) : ℝ) *
      (1 - npStd (domainList.map (fun dom => (analyze_domain d dom).confidence))) =
      ((0.85 : ℚ) : ℝ)
    rw [npStd, hvar0, hmean]
    push_cast
    rw [Real.sqrt_zero]
    ring
  · show ((domainList.map (fun dom => (analyze_domain d dom).confidence)).sum) /
      (domainList.length : ℚ) = 0.85
    norm_num [domainList, analyze_domain, _game_theory_analysis]

/-- Witness for C1: the reducer theorem instantiated at the concrete
analyses of `exampleDecision` and the (already normalized) base weights. -/
theorem C1_synthesis_reducer_witness :
    ((domainList.map _initialize_domain_weights).sum = 1 ∧
      scoresList exampleAnalyses _initialize_domain_weights ≠ []) ∧
    (∃ r, _perform_synthesis exampleAnalyses _initialize_domain_weights = .ok r ∧
      r.option_scores = scoresList exampleAnalyses _initialize_domain_weights ∧
      (∀ opt, lookupD r.option_scores opt =
        specAccumScore exampleAnalyses _initialize_domain_weights opt) ∧
      (∀ opt, opt ∈ keysOf r.option_scores ↔
        ∃ dom ∈ domainList, ∃ p ∈ (exampleAnalyses dom).predictions, p.1 = opt) ∧
      r.recommended_option ∈ keysOf r.option_scores ∧
      (∀ opt ∈ keysOf r.option_scores,
        lookupD r.option_scores opt ≤ lookupD r.option_scores r.recommended_option) ∧
      r.synthesis_confidence =
        (domainList.map (fun dom => (exampleAnalyses dom).confidence)).sum / 10) :=
  ⟨⟨by norm_num [domainList, _initialize_domain_weights], by decide⟩,
   C1_synthesis_reducer exampleAnalyses _initialize_domain_weights
      (by norm_num [domainList, _initialize_domain_weights]) (by decide)⟩

/-- Witness for C3: the uniform-score theorem at `exampleDecision`
(two distinct options "A" and "B"). -/
theorem C3_uniform_stub_witness :
    (exampleDecision.options ≠ [] ∧ exampleDecision.options.Nodup) ∧
    (∃ r, synthesize_decision UniversalIntelligenceSynthesis.init exampleDecision =
        .ok r ∧
      r.decision_synthesis.option_scores =
        exampleDecision.options.map
          (fun o => (o, (0.85 : ℚ) / (exampleDecision.options.length : ℚ))) ∧
      exampleDecision.options.head? =
        some r.decision_synthesis.recommended_option) :=
  ⟨⟨by decide, by decide⟩,
   C3_uniform_stub exampleDecision (by decide) (by decide)⟩

/-- Witness for C10: the constant-confidence theorem at `exampleDecision`. -/
theorem C10_constant_confidence_witness :
    exampleDecision.options ≠ [] ∧
    ((∀ dom, (analyze_domain exampleDecision dom).confidence = 0.85) ∧
      ∃ r, synthesize_decision UniversalIntelligenceSynthesis.init exampleDecision =
          .ok r ∧
        r.confidence_metrics.average_confidence = 0.85 ∧
        r.confidence_metrics.synthesis_reliability = ((0.85 : ℚ) : ℝ) ∧
        r.decision_synthesis.synthesis_confidence = 0.85) :=
  ⟨by decide, C10_constant_confidence exampleDecision (by decide)⟩
